import Mathlib

/-!
Verification development for the AT_Tracker repository: a shallow embedding of
the session-tracking and record-lifecycle engine (rolling cache, session
tracker, record store, retention sweeper, query engine) of
`AT_Tracker/track.py` and `nonebot_plugin_at_tracker/__init__.py`, whose core
logic is identical, together with theorems about its behaviour.

External collaborators (datetime parsing/formatting, md5-based media and
record-id naming, the download boundary) are passed in as parameters of the
embedded functions, matching the spec's treatment of them as external
boundaries; all control flow and data manipulation is translated from the
source.
-/

namespace ATTracker

/-- A mention target as stored in records and sessions: the target id string
(`qq`, possibly the sentinel `"all"`) and its display name (`card`). -/
structure Target where
  qq : String
  card : String
deriving DecidableEq

/-- One content item of a normalized message: a text fragment, an image
reference, or a mention (`at`) segment, mirroring the `type` tags of the
content dicts built by `parse_and_enrich_message`. -/
inductive ContentItem where
  | text (content : String)
  | image (url : String)
  | atTag (qq : String) (card : String)
deriving DecidableEq

/-- A normalized chat message as built by `process_group_message` Part 1
(`msg_record`). -/
structure Message where
  user_id : Int
  card : String
  time : String
  content : List ContentItem
  message_id : String
deriving DecidableEq

/-- A persisted mention record (`at_record`). `start_time` is an `Option` to
model loaded JSON objects that lack the field (a `KeyError` in the source). -/
structure AtRecord where
  id : String
  group_id : Int
  sender_id : Int
  targets : List Target
  start_time : Option String
  messages : List Message
  associated_images : List String
deriving DecidableEq

/-- An in-memory tracking session (an entry of `active_at_tracking`). -/
structure Session where
  record_id : String
  sender_id : Int
  targets : List Target
  remaining : Int
deriving DecidableEq

/-- The per-room state touched by `process_group_message`:
`message_cache[gid]`, `at_records[gid]` and `active_at_tracking[gid]` (an
absent key is modelled as the empty list). -/
structure GroupState where
  cache : List Message
  records : List AtRecord
  sessions : List Session
deriving DecidableEq

/-- The configuration options read by the tracker (`CACHE_SIZE`,
`TRACKING_COUNT`). -/
structure Config where
  cacheSize : Nat
  trackingCount : Int

/-- `has_at`: whether a content list contains a mention segment. -/
def hasAt (content : List ContentItem) : Bool :=
  content.any fun c => match c with
    | .atTag _ _ => true
    | _ => false

/-- `at_targets`: the mention targets of a content list, in order. -/
def atTargets (content : List ContentItem) : List Target :=
  content.filterMap fun c => match c with
    | .atTag q cd => some ⟨q, cd⟩
    | _ => none

/-- Image names of a message's content, via the external deterministic naming
function (`{timestamp}_{md5(url)}.webp` in the source). -/
def imageNames (mediaName : String → String) (m : Message) : List String :=
  m.content.filterMap fun c => match c with
    | .image url => some (mediaName url)
    | _ => none

/-- `process_images_in_message`'s effect on an associated-images list: each
image name is appended unless already present. -/
def addImages (names : List String) (assoc : List String) : List String :=
  List.foldl (fun acc n => if acc.contains n then acc else acc ++ [n]) assoc names

/-- The advance-phase mutation of a record: append the message and record its
image names (`record_to_update["messages"].append`, plus
`process_images_in_message` on the associated-images list). -/
def appendMsgToRecord (mediaName : String → String) (msg : Message) (r : AtRecord) : AtRecord :=
  { r with
    messages := r.messages ++ [msg]
    associated_images := addImages (imageNames mediaName msg) r.associated_images }

/-- In-place mutation of the first record with a given id, modelling
`next(r for r in at_records[gid] if r["id"] == session["record_id"])`
followed by mutation of that object. -/
def updateFirstRecord (rid : String) (f : AtRecord → AtRecord) : List AtRecord → List AtRecord
  | [] => []
  | r :: rs => if r.id == rid then f r :: rs else r :: updateFirstRecord rid f rs

/-- `deque(maxlen=n).append`: keep the most recent `n` messages. -/
def pushCache (n : Nat) (cache : List Message) (m : Message) : List Message :=
  let c := cache ++ [m]
  c.drop (c.length - n)

/-- Index of the first message satisfying `p` (the `enumerate`/`break` loop
pattern used by the source). -/
def firstMatchIdx (p : Message → Bool) : List Message → Option Nat
  | [] => none
  | m :: rest => if p m then some 0 else (firstMatchIdx p rest).map (· + 1)

/-- The initial-context computation of the trigger phase:
`first_sender_msg_index` is the index of the first cache message authored by
the sender; `start_index = max(0, first_sender_msg_index - 1)` if found, else
`0`; the excerpt is `cache_list[start_index:]`. -/
def initialExcerpt (cache : List Message) (uid : Int) : List Message :=
  match firstMatchIdx (fun m => m.user_id == uid) cache with
  | some i => cache.drop (i - 1)
  | none => cache

/-- Equality of the two qq-string sets
`{str(t["qq"]) for t in targets}`, as mutual inclusion. -/
def qqSetEq (a b : List Target) : Bool :=
  a.all (fun t => b.any fun u => u.qq == t.qq) && b.all (fun t => a.any fun u => u.qq == t.qq)

/-- The duplicate-session test of the trigger phase: the session has the same
sender and the same target qq-set as the incoming mention. -/
def sessionKeyMatches (uid : Int) (tgts : List Target) (s : Session) : Bool :=
  (s.sender_id == uid) && qqSetEq s.targets tgts

/-- Part 2 of `process_group_message` (the advance phase): for each open
session in order, look up its linked record; if present, append the incoming
message to it, decrement the session's budget and keep the session only while
the budget stays positive; if absent, drop the session (dangling-session
anomaly). Returns the updated record list and the kept sessions
(`sessions_to_keep`). -/
def advanceSessions (mediaName : String → String) (msg : Message) :
    List AtRecord → List Session → List AtRecord × List Session
  | recs, [] => (recs, [])
  | recs, s :: rest =>
    if recs.any fun r => r.id == s.record_id then
      let recs' := updateFirstRecord s.record_id (appendMsgToRecord mediaName msg) recs
      let s' : Session := { s with remaining := s.remaining - 1 }
      let res := advanceSessions mediaName msg recs' rest
      (res.1, if s'.remaining > 0 then s' :: res.2 else res.2)
    else
      advanceSessions mediaName msg recs rest

/-- `process_group_message` on one room's state. External inputs: the bot's
own id string, the media naming function, the freshly derived record id and
the current-time string (both produced from `datetime.now()`/md5 in the
source), the room id and the normalized incoming message. -/
def processGroupMessage (cfg : Config) (botSelfId : String) (mediaName : String → String)
    (newRecordId nowStr : String) (gid : Int) (st : GroupState) (msg : Message) : GroupState :=
  let cache1 := pushCache cfg.cacheSize st.cache msg
  let adv := advanceSessions mediaName msg st.records st.sessions
  let tgts := atTargets msg.content
  if hasAt msg.content && !(toString msg.user_id == botSelfId) then
    if adv.2.any (sessionKeyMatches msg.user_id tgts) then
      ⟨cache1, adv.1, adv.2⟩
    else
      let initial := initialExcerpt cache1 msg.user_id
      let newRec : AtRecord :=
        { id := newRecordId
          group_id := gid
          sender_id := msg.user_id
          targets := tgts
          start_time := some nowStr
          messages := initial
          associated_images :=
            List.foldl (fun acc m => addImages (imageNames mediaName m) acc) [] initial }
      ⟨cache1, adv.1 ++ [newRec],
        adv.2 ++ [{ record_id := newRecordId, sender_id := msg.user_id, targets := tgts,
                    remaining := cfg.trackingCount }]⟩
  else
    ⟨cache1, adv.1, adv.2⟩

/-- One observed message together with the externally derived fresh record id
and current-time string used if it triggers a new session. -/
structure StepInput where
  msg : Message
  newRecordId : String
  nowStr : String
deriving DecidableEq

/-- One invocation of the message handler on a room. -/
def runStep (cfg : Config) (botSelfId : String) (mediaName : String → String) (gid : Int)
    (st : GroupState) (inp : StepInput) : GroupState :=
  processGroupMessage cfg botSelfId mediaName inp.newRecordId inp.nowStr gid st inp.msg

/-- A sequence of handler invocations on a room. -/
def runSteps (cfg : Config) (botSelfId : String) (mediaName : String → String) (gid : Int)
    (st : GroupState) (inputs : List StepInput) : GroupState :=
  List.foldl (runStep cfg botSelfId mediaName gid) st inputs

/-- No two open sessions share the (sender, target-qq-set) key. -/
def noDupSessions : List Session → Bool
  | [] => true
  | s :: rest => !(rest.any (sessionKeyMatches s.sender_id s.targets)) && noDupSessions rest

/-- The fate of one session in the advance phase, as a function of the set of
record ids present: dropped if its record id is absent (dangling) or its
decremented budget is not positive, otherwise kept with budget decremented. -/
def keepSession (ids : List String) (s : Session) : Option Session :=
  if ids.any fun i => i == s.record_id then
    if s.remaining - 1 > 0 then some { s with remaining := s.remaining - 1 } else none
  else none

/-- Greatest index of a message in the list authored by `uid`, or `none`. -/
def lastSenderRel (uid : Int) : List Message → Option Nat
  | [] => none
  | m :: rest =>
    match lastSenderRel uid rest with
    | some j => some (j + 1)
    | none => if m.user_id == uid then some 0 else none

/-- `last_sender_index_after_at`: the loop
`for i in range(at_msg_index + 1, len(messages))` keeping the last index
authored by the sender, i.e. the greatest sender-authored index strictly
after `atIdx`. -/
def lastSenderIdxAfter (uid : Int) (atIdx : Nat) (msgs : List Message) : Option Nat :=
  (lastSenderRel uid (msgs.drop (atIdx + 1))).map (· + (atIdx + 1))

/-- The finalization rule of `handle_who_at_me`: locate the first message that
both carries a mention and is authored by the record's sender; if none, drop
the record (`continue`); else truncate the excerpt to
`min(last_sender_index_after_at + 2, len)` messages when the sender speaks
again after that point, else keep it whole. -/
def finalizeRecord (r : AtRecord) : Option AtRecord :=
  match firstMatchIdx (fun m => hasAt m.content && (m.user_id == r.sender_id)) r.messages with
  | none => none
  | some atIdx =>
    let endIdx :=
      match lastSenderIdxAfter r.sender_id atIdx r.messages with
      | some j => min (j + 2) r.messages.length
      | none => r.messages.length
    some { r with messages := r.messages.take endIdx }

/-- Sort key of the query's final ordering: the record's `start_time` string
(always present on records that reach the sort). -/
def startKey (r : AtRecord) : String :=
  r.start_time.getD ""

/-- Stable descending insertion by `startKey`. -/
def insertByStartDesc (r : AtRecord) : List AtRecord → List AtRecord
  | [] => [r]
  | x :: xs => if startKey x ≤ startKey r then r :: x :: xs else x :: insertByStartDesc r xs

/-- Stable sort by `start_time` descending, modelling Python's stable
`sorted(key=lambda x: x["start_time"], reverse=True)`. -/
def sortByStartDesc : List AtRecord → List AtRecord
  | [] => []
  | r :: rs => insertByStartDesc r (sortByStartDesc rs)

/-- Retention test of the query: keep a record iff its `start_time` parses and
`record_time >= cutoff_date`; a missing or unparseable timestamp is skipped
(with a warning in the source). `parse` stands for
`datetime.strptime(_, "%Y%m%d %H:%M:%S")`, with `none` for `ValueError`. -/
def validRecord (parse : String → Option Int) (cutoff : Int) (r : AtRecord) : Bool :=
  match r.start_time.bind parse with
  | some t => decide (cutoff ≤ t)
  | none => false

/-- Target filter of the query: some target's qq equals the queried user id or
is the `"all"` sentinel. -/
def targetsUser (userId : String) (r : AtRecord) : Bool :=
  r.targets.any fun t => t.qq == userId || t.qq == "all"

/-- The query pipeline of `handle_who_at_me` on one room's records: retention
filter, target filter, finalization, sort by start time descending, first
ten. -/
def handle_who_at_me (parse : String → Option Int) (cutoff : Int)
    (records : List AtRecord) (userId : String) : List AtRecord :=
  let valid := records.filter (validRecord parse cutoff)
  let userRecs := valid.filter (targetsUser userId)
  let finalized := userRecs.filterMap finalizeRecord
  (sortByStartDesc finalized).take 10

/-- The on-disk file name of a record. -/
def recordFileName (rid : String) : String :=
  "at_record_" ++ rid ++ ".json"

/-- Deleting a batch of files from a directory listing (`os.remove` guarded by
an existence check, so absent names are no-ops). -/
def removeAll (files : List String) (names : List String) : List String :=
  files.filter fun f => !(names.contains f)

/-- The deletion test of the retention sweep: the record's `start_time` parses
and `record_time < cutoff_date`; a missing field (`KeyError`) or parse
failure (`ValueError`) yields `false` — the record is conservatively kept
with a warning. -/
def shouldDelete (parse : String → Option Int) (cutoff : Int) (r : AtRecord) : Bool :=
  match r.start_time.bind parse with
  | some t => decide (t < cutoff)
  | none => false

/-- The per-room body of `cleanup_old_records`: walk the records building
`records_to_keep`; a record to delete has its associated image files and its
own record file removed from the room directory. Returns the kept records and
the remaining directory files. -/
def sweepGroup (parse : String → Option Int) (cutoff : Int) :
    List AtRecord → List String → List AtRecord × List String
  | [], files => ([], files)
  | r :: rest, files =>
    if shouldDelete parse cutoff r then
      sweepGroup parse cutoff rest (removeAll files (r.associated_images ++ [recordFileName r.id]))
    else
      let res := sweepGroup parse cutoff rest files
      (r :: res.1, res.2)

/-- The file names removed by one room's sweep: associated images and record
file of every record that the sweep deletes. -/
def deletedNames (parse : String → Option Int) (cutoff : Int) : List AtRecord → List String
  | [] => []
  | r :: rest =>
    (if shouldDelete parse cutoff r then r.associated_images ++ [recordFileName r.id] else [])
      ++ deletedNames parse cutoff rest

/-- `cleanup_old_records` over the whole store: every room's in-memory record
list and on-disk directory listing is swept independently. -/
def cleanup_old_records (parse : String → Option Int) (cutoff : Int)
    (st : List (Int × List AtRecord × List String)) :
    List (Int × List AtRecord × List String) :=
  st.map fun e => (e.1, sweepGroup parse cutoff e.2.1 e.2.2)

/-- One directory entry under the record root, as seen by
`RECORD_PATH.iterdir()`: its name, whether it is a directory, and the parse
results of its `at_record_*.json` files in glob order (`none` marks a file
whose `json.load` raises `JSONDecodeError`). -/
structure DirEntry where
  name : String
  isDir : Bool
  files : List (Option AtRecord)
deriving DecidableEq

/-- `str.isdigit()`: nonempty and all digits. -/
def isAllDigits (s : String) : Bool :=
  !s.isEmpty && s.data.all fun c => c.isDigit

/-- `int(...)` on a digit string. -/
def digitsToNat (s : String) : Nat :=
  s.data.foldl (fun acc c => acc * 10 + (c.toNat - Char.toNat '0')) 0

/-- Loading one room directory: files are read in order and appended to the
room's list; the first `JSONDecodeError` aborts the room's inner loop (the
`except` clause wraps the whole per-room `for`), keeping what was already
appended. -/
def loadRoomRecords : List (Option AtRecord) → List AtRecord
  | [] => []
  | some r :: rest => r :: loadRoomRecords rest
  | none :: _ => []

/-- `load_at_records`: rebuild the in-memory index from the directory
entries in order, considering only digit-named directories (each such
directory contributes its key `int(group_dir.name)` and the records loaded
from its files). -/
def load_at_records : List DirEntry → List (Int × List AtRecord)
  | [] => []
  | e :: rest =>
    if e.isDir && isAllDigits e.name then
      ((digitsToNat e.name : Int), loadRoomRecords e.files) :: load_at_records rest
    else load_at_records rest

/-- `handle_clear_at_records` on one room: empty the in-memory record list,
delete the room's active tracking sessions, and remove every file of the
room's directory (`shutil.rmtree` followed by recreating the empty
directory). The rolling message cache is not touched. -/
def handle_clear_at_records (st : GroupState) (_files : List String) :
    GroupState × List String :=
  ({ st with records := [], sessions := [] }, [])

/-- Modelled from the spec wording of claim C1 (refinement comparison
definition, not source code): scan the cache backward for the most recent
message authored by the sender *prior to* the just-arrived message (the
cache's last entry); the excerpt begins one message before that occurrence,
or at the start of the cache if the sender has no prior message in the
window, and runs through the current message inclusive. -/
def excerptClaimC1 (cache : List Message) (uid : Int) : List Message :=
  match lastSenderRel uid cache.dropLast with
  | some j => cache.drop (j - 1)
  | none => cache

/-! Concrete instances used by the counterexamples and witnesses. -/

/-- A configuration with the source defaults scaled down: cache of five,
tracking budget ten. -/
def exCfg : Config := ⟨5, 10⟩

/-- A concrete stand-in for the external timestamp parser, defined on the two
timestamp strings the examples use. -/
def exParse (s : String) : Option Int :=
  if s = "old" then some 0 else if s = "new" then some 10 else none

/-- Message constructor for examples. -/
def exMsg (u : Int) (c : List ContentItem) (mid : String) : Message :=
  ⟨u, "name", "20240101 00:00:00", c, mid⟩

def exTargetA : Target := ⟨"4", "four"⟩

def c1State : GroupState :=
  ⟨[exMsg 2 [.text "hi"] "m1", exMsg 3 [.text "yo"] "m2"], [], []⟩

def c1Msg : Message := exMsg 1 [.atTag "7" "seven"] "m3"

def c2Record : AtRecord := ⟨"r0", 42, 9, [exTargetA], some "new", [], []⟩

def c2State : GroupState := ⟨[], [c2Record], [⟨"r0", 9, [exTargetA], 3⟩]⟩

def c2Input : StepInput := ⟨exMsg 9 [.atTag "4" "four"] "m5", "fresh1", "new"⟩

def c3Record : AtRecord := ⟨"r3", 42, 9, [exTargetA], some "new", [], []⟩

def c3Session : Session := ⟨"r3", 9, [exTargetA], 2⟩

def c3State : GroupState := ⟨[], [c3Record], [c3Session]⟩

def c3Inputs : List StepInput :=
  [⟨exMsg 8 [.text "a"] "p1", "f1", "n1"⟩, ⟨exMsg 8 [.text "b"] "p2", "f2", "n2"⟩]

def c4Record : AtRecord :=
  ⟨"rf", 42, 9, [exTargetA], some "new",
    [exMsg 1 [.text "a"] "i0", exMsg 9 [.atTag "4" "four"] "i1", exMsg 2 [.text "b"] "i2",
     exMsg 9 [.text "c"] "i3", exMsg 2 [.text "d"] "i4", exMsg 2 [.text "e"] "i5"], []⟩

def c5RecA : AtRecord := ⟨"a1", 1, 9, [exTargetA], some "new", [], []⟩

def c5RecB : AtRecord := ⟨"b2", 1, 9, [exTargetA], some "new", [], []⟩

def c5Entries : List DirEntry := [⟨"1", true, [some c5RecA, none, some c5RecB]⟩]

def c6Msg : Message := exMsg 5 [.atTag "5" "self"] "m9"

def c7RecOld : AtRecord := ⟨"r0", 42, 9, [exTargetA], some "old", [], ["img1"]⟩

def c7RecNew : AtRecord := ⟨"rn", 42, 9, [exTargetA], some "new", [], []⟩

def c7Files : List String := ["at_record_r0.json", "img1", "at_record_rn.json"]

def c10RecBad : AtRecord :=
  ⟨"rx", 42, 9, [exTargetA], none, [exMsg 9 [.atTag "4" "four"] "i1"], []⟩

/-! Helper lemmas about the advance phase. -/

theorem appendMsgToRecord_id (mediaName : String → String) (msg : Message) (r : AtRecord) :
    (appendMsgToRecord mediaName msg r).id = r.id := rfl

theorem updateFirstRecord_map_id (rid : String) (f : AtRecord → AtRecord)
    (hf : ∀ r, (f r).id = r.id) :
    ∀ l : List AtRecord,
      (updateFirstRecord rid f l).map (fun r => r.id) = l.map (fun r => r.id)
  | [] => rfl
  | r :: rs => by
    simp only [updateFirstRecord]
    split
    · simp [hf]
    · simp [updateFirstRecord_map_id rid f hf rs]

theorem any_map_id (recs : List AtRecord) (rid : String) :
    (recs.map (fun r => r.id)).any (fun i => i == rid) = recs.any (fun r => r.id == rid) := by
  induction recs with
  | nil => rfl
  | cons r rs ih => simp [ih]

theorem advanceSessions_fst_map_id (mediaName : String → String) (msg : Message) :
    ∀ (ss : List Session) (recs : List AtRecord),
      ((advanceSessions mediaName msg recs ss).1).map (fun r => r.id) = recs.map (fun r => r.id)
  | [], _ => rfl
  | s :: rest, recs => by
    simp only [advanceSessions]
    split
    · rw [advanceSessions_fst_map_id mediaName msg rest,
        updateFirstRecord_map_id s.record_id (appendMsgToRecord mediaName msg) (fun r => rfl)]
    · exact advanceSessions_fst_map_id mediaName msg rest recs

theorem advanceSessions_snd_eq (mediaName : String → String) (msg : Message) :
    ∀ (ss : List Session) (recs : List AtRecord),
      (advanceSessions mediaName msg recs ss).2
        = ss.filterMap (keepSession (recs.map (fun r => r.id)))
  | [], _ => rfl
  | s :: rest, recs => by
    have hids := any_map_id recs s.record_id
    simp only [advanceSessions, List.filterMap_cons, keepSession, hids]
    cases hc : recs.any (fun r => r.id == s.record_id) with
    | false => simp [hc, advanceSessions_snd_eq mediaName msg rest recs]
    | true =>
      have h1 := advanceSessions_snd_eq mediaName msg rest
        (updateFirstRecord s.record_id (appendMsgToRecord mediaName msg) recs)
      rw [updateFirstRecord_map_id s.record_id (appendMsgToRecord mediaName msg)
        (fun r => rfl)] at h1
      simp only [hc, h1]
      split
      · split <;> simp_all
      · simp_all

theorem keepSession_fields {ids : List String} {s s' : Session}
    (h : keepSession ids s = some s') :
    s'.record_id = s.record_id ∧ s'.sender_id = s.sender_id ∧ s'.targets = s.targets := by
  unfold keepSession at h
  split at h
  · split at h
    · cases h; exact ⟨rfl, rfl, rfl⟩
    · cases h
  · cases h

theorem qqSetEq_symm (a b : List Target) : qqSetEq a b = qqSetEq b a := by
  unfold qqSetEq
  rw [Bool.and_comm]

theorem sessionKeyMatches_swap (a s : Session) :
    sessionKeyMatches a.sender_id a.targets s = sessionKeyMatches s.sender_id s.targets a := by
  unfold sessionKeyMatches
  rw [qqSetEq_symm]
  by_cases h : s.sender_id = a.sender_id
  · rw [h]
  · rw [beq_eq_false_iff_ne.mpr h, beq_eq_false_iff_ne.mpr (Ne.symm h)]

theorem mem_filterMap_keep {ids : List String} {ss : List Session} {t : Session}
    (h : t ∈ ss.filterMap (keepSession ids)) :
    ∃ u ∈ ss, t.record_id = u.record_id ∧ t.sender_id = u.sender_id ∧ t.targets = u.targets := by
  rcases List.mem_filterMap.mp h with ⟨u, hu, hk⟩
  exact ⟨u, hu, (keepSession_fields hk).1, (keepSession_fields hk).2.1,
    (keepSession_fields hk).2.2⟩

theorem noDupSessions_filterMap_keep (ids : List String) :
    ∀ ss : List Session, noDupSessions ss = true →
      noDupSessions (ss.filterMap (keepSession ids)) = true
  | [], _ => rfl
  | s :: rest, h => by
    simp only [noDupSessions, Bool.and_eq_true, Bool.not_eq_true'] at h
    obtain ⟨h1, h2⟩ := h
    simp only [List.filterMap_cons]
    cases hk : keepSession ids s with
    | none => exact noDupSessions_filterMap_keep ids rest h2
    | some s' =>
      simp only [noDupSessions, Bool.and_eq_true, Bool.not_eq_true']
      refine ⟨?_, noDupSessions_filterMap_keep ids rest h2⟩
      rw [List.any_eq_false]
      intro t ht
      obtain ⟨u, hu, _, hsid, htg⟩ := mem_filterMap_keep ht
      obtain ⟨_, hsid', htg'⟩ := keepSession_fields hk
      rw [List.any_eq_false] at h1
      unfold sessionKeyMatches at h1 ⊢
      rw [hsid, htg, hsid', htg']
      exact h1 u hu

theorem noDupSessions_append_one (a : Session) :
    ∀ l : List Session, noDupSessions l = true →
      l.any (sessionKeyMatches a.sender_id a.targets) = false →
      noDupSessions (l ++ [a]) = true
  | [], _, _ => by simp [noDupSessions]
  | s :: rest, h, hany => by
    simp only [noDupSessions, Bool.and_eq_true, Bool.not_eq_true'] at h
    obtain ⟨h1, h2⟩ := h
    simp only [List.any_cons, Bool.or_eq_false_iff] at hany
    obtain ⟨ha1, ha2⟩ := hany
    simp only [List.cons_append, noDupSessions, Bool.and_eq_true, Bool.not_eq_true']
    refine ⟨?_, noDupSessions_append_one a rest h2 ha2⟩
    have hswap : sessionKeyMatches s.sender_id s.targets a = false := by
      rw [← sessionKeyMatches_swap]
      exact ha1
    simp [List.any_append, h1, hswap]

/-! Claim theorems. -/

/-- C2: a new tracking session (and mention record) is created only if no
already-open session in the room has the identical (sender, target-set) pair
after the advance phase; consequently the at-most-one-open-session-per-key
invariant is preserved by every message, and a duplicate mention while a
matching session is open leaves both the session list and the record list of
the trigger phase untouched. -/
theorem c2_unique_session_per_key (cfg : Config) (botId : String)
    (mediaName : String → String) (gid : Int) (st : GroupState) (inp : StepInput)
    (h : noDupSessions st.sessions = true) :
    noDupSessions (runStep cfg botId mediaName gid st inp).sessions = true ∧
      ((advanceSessions mediaName inp.msg st.records st.sessions).2.any
          (sessionKeyMatches inp.msg.user_id (atTargets inp.msg.content)) = true →
        (runStep cfg botId mediaName gid st inp).sessions
            = (advanceSessions mediaName inp.msg st.records st.sessions).2 ∧
          (runStep cfg botId mediaName gid st inp).records
            = (advanceSessions mediaName inp.msg st.records st.sessions).1) := by
  have hkept : noDupSessions (advanceSessions mediaName inp.msg st.records st.sessions).2
      = true := by
    rw [advanceSessions_snd_eq]
    exact noDupSessions_filterMap_keep _ _ h
  unfold runStep processGroupMessage
  cases htr : (hasAt inp.msg.content && !(toString inp.msg.user_id == botId)) with
  | false => simp [htr, hkept]
  | true =>
    cases hdup : (advanceSessions mediaName inp.msg st.records st.sessions).2.any
        (sessionKeyMatches inp.msg.user_id (atTargets inp.msg.content)) with
    | true => simp [htr, hdup, hkept]
    | false =>
      simp only [htr, hdup, if_true, Bool.false_eq_true, if_false]
      refine ⟨?_, fun hcontra => by simp at hcontra⟩
      exact noDupSessions_append_one _ _ hkept hdup

/-- C2 witness: a duplicate mention by sender 9 at target set containing 4,
while a matching session is open, preserves the invariant and creates no new
session or record. -/
theorem c2_unique_session_per_key_witness :
    noDupSessions (runStep exCfg "bot" id 42 c2State c2Input).sessions = true ∧
      (runStep exCfg "bot" id 42 c2State c2Input).sessions
        = (advanceSessions id c2Input.msg c2State.records c2State.sessions).2 := by
  have h := c2_unique_session_per_key exCfg "bot" id 42 c2State c2Input (by decide)
  exact ⟨h.1, (h.2 (by decide)).1⟩

/-- C6 counterexample: a message by sender 5 whose only mention targets the
sender's own identity ("5") does open a new tracking session (the source
checks only `has_at` and the sender not being the bot, with no
targets-other-than-sender condition), while the claim says no session is
started. -/
theorem c6_counterexample :
    (processGroupMessage exCfg "bot" id "rid2" "now2" 42 ⟨[], [], []⟩ c6Msg).sessions.map
        (fun s => (s.record_id, s.sender_id, s.targets.map Target.qq, s.remaining))
      = [("rid2", (5 : Int), ["5"], (10 : Int))] ∧
      (atTargets c6Msg.content).map Target.qq = [toString c6Msg.user_id] := by
  decide

/-- C6 (amended): the trigger phase opens a new session exactly when the
message contains at least one mention, the sender is not the bot identity,
and no open (post-advance) session matches the (sender, target-set) pair;
the mention targets are not compared against the sender, so a message whose
only mention targets the sender's own identity does start a session. -/
theorem c6_amended (cfg : Config) (botId : String) (mediaName : String → String)
    (gid : Int) (st : GroupState) (inp : StepInput) :
    ((hasAt inp.msg.content = false ∨ toString inp.msg.user_id = botId) →
      (runStep cfg botId mediaName gid st inp).sessions
        = (advanceSessions mediaName inp.msg st.records st.sessions).2) ∧
    (hasAt inp.msg.content = true → toString inp.msg.user_id ≠ botId →
      (advanceSessions mediaName inp.msg st.records st.sessions).2.any
          (sessionKeyMatches inp.msg.user_id (atTargets inp.msg.content)) = false →
      (runStep cfg botId mediaName gid st inp).sessions
        = (advanceSessions mediaName inp.msg st.records st.sessions).2
          ++ [{ record_id := inp.newRecordId, sender_id := inp.msg.user_id,
                targets := atTargets inp.msg.content, remaining := cfg.trackingCount }]) := by
  unfold runStep processGroupMessage
  constructor
  · rintro (hno | hbot)
    · simp [hno]
    · simp [hbot]
  · intro hat hbot hdup
    rw [(by simp [hat, hbot] : (hasAt inp.msg.content
        && !(toString inp.msg.user_id == botId)) = true)]
    simp [hdup]

/-- C6 amended witness: the self-mention message of the counterexample
satisfies the amended trigger condition and yields exactly one new session. -/
theorem c6_amended_witness :
    (runStep exCfg "bot" id 42 ⟨[], [], []⟩ ⟨c6Msg, "rid2", "now2"⟩).sessions
      = [{ record_id := "rid2", sender_id := c6Msg.user_id,
           targets := atTargets c6Msg.content, remaining := exCfg.trackingCount }] := by
  have h := (c6_amended exCfg "bot" id 42 ⟨[], [], []⟩ ⟨c6Msg, "rid2", "now2"⟩).2
    (by decide) (by decide) (by decide)
  simpa using h

/-- C9: the manual clear of a room empties its record list, discards all of
the room's open tracking sessions and removes every file of the room
directory; hence each record present after the next observed message in that
room is a freshly created one (its id is the fresh record id), so the advance
phase can never append to or re-persist a record deleted by the clear. -/
theorem c9_clear_discards_sessions (cfg : Config) (botId : String)
    (mediaName : String → String) (gid : Int) (st : GroupState) (files : List String)
    (inp : StepInput) :
    (handle_clear_at_records st files).1.sessions = [] ∧
    (handle_clear_at_records st files).1.records = [] ∧
    (handle_clear_at_records st files).2 = [] ∧
    ((runStep cfg botId mediaName gid (handle_clear_at_records st files).1 inp).records.all
        fun r => r.id == inp.newRecordId) = true := by
  refine ⟨rfl, rfl, rfl, ?_⟩
  unfold runStep processGroupMessage handle_clear_at_records
  simp only [advanceSessions]
  split
  · split <;> simp
  · simp

/-! First-index characterization lemmas for the trigger-phase excerpt. -/

theorem firstMatchIdx_eq_none (p : Message → Bool) :
    ∀ l : List Message, (∀ m ∈ l, p m = false) → firstMatchIdx p l = none
  | [], _ => rfl
  | m :: rest, h => by
    have hm := h m (List.mem_cons_self m rest)
    simp [firstMatchIdx, hm,
      firstMatchIdx_eq_none p rest (fun x hx => h x (List.mem_cons_of_mem _ hx))]

theorem firstMatchIdx_eq_some (p : Message → Bool) :
    ∀ (l : List Message) (i : Nat), i < l.length →
      (l[i]?.all p) = true →
      (∀ j, j < i → (l[j]?.all fun m => !p m) = true) →
      firstMatchIdx p l = some i
  | [], i, hi, _, _ => absurd hi (by simp)
  | m :: rest, i, hi, hp, hmin => by
    cases i with
    | zero =>
      simp only [List.getElem?_cons_zero, Option.all_some] at hp
      simp [firstMatchIdx, hp]
    | succ i' =>
      have h0 := hmin 0 (Nat.succ_pos i')
      simp only [List.getElem?_cons_zero, Option.all_some, Bool.not_eq_true'] at h0
      rw [List.getElem?_cons_succ] at hp
      simp only [firstMatchIdx, h0, Bool.false_eq_true, if_false]
      rw [firstMatchIdx_eq_some p rest i' (by simpa using hi) hp
        (fun j hj => by simpa using hmin (j + 1) (by omega))]
      rfl

/-- C1 counterexample: room cache [m1 by user 2, m2 by user 3], then user 1
sends m3 mentioning "7". User 1 has no prior message in the window, so the
claim's rule yields the excerpt [m1, m2, m3] (start of cache); the code
instead finds user 1's first (= current) message and starts one before it,
recording only [m2, m3]. -/
theorem c1_counterexample :
    ((processGroupMessage exCfg "bot" id "rid1" "now1" 42 c1State c1Msg).records.map
        (fun r => r.messages.map (fun m => m.message_id)) = [["m2", "m3"]]) ∧
    (excerptClaimC1 (pushCache exCfg.cacheSize c1State.cache c1Msg) c1Msg.user_id).map
        (fun m => m.message_id) = ["m1", "m2", "m3"] ∧
    (["m2", "m3"] : List String) ≠ ["m1", "m2", "m3"] := by
  decide

/-- C1 (amended): the trigger phase's initial excerpt starts one message
before the *earliest* cache message authored by the sender (the scan runs
forward and stops at the first match; the just-arrived message is already in
the cache, so a sender with no prior message matches at the current message),
clamped to the cache start, and runs through the end of the cache: if `i` is
the least index of a sender-authored message, the excerpt is the cache from
index `i - 1` on. -/
theorem c1_amended (cache : List Message) (uid : Int) (i : Nat)
    (hi : i < cache.length)
    (hp : (cache[i]?.all fun m => m.user_id == uid) = true)
    (hmin : ∀ j, j < i → (cache[j]?.all fun m => !(m.user_id == uid)) = true) :
    initialExcerpt cache uid = cache.drop (i - 1) := by
  unfold initialExcerpt
  rw [firstMatchIdx_eq_some _ cache i hi hp hmin]

/-- C1 amended witness: in a cache where the sender's earliest message is at
index 2, the excerpt is the cache from index 1 on. -/
theorem c1_amended_witness :
    initialExcerpt [exMsg 7 [] "k0", exMsg 8 [] "k1", exMsg 1 [] "k2"] 1
      = List.drop 1 [exMsg 7 [] "k0", exMsg 8 [] "k1", exMsg 1 [] "k2"] := by
  have h := c1_amended [exMsg 7 [] "k0", exMsg 8 [] "k1", exMsg 1 [] "k2"] 1 2
    (by decide) (by decide) (by decide)
  simpa using h

/-! Lemmas about the startup load. -/

theorem loadRoomRecords_eq :
    ∀ fs : List (Option AtRecord),
      loadRoomRecords fs = (fs.takeWhile Option.isSome).filterMap (fun x => x)
  | [] => rfl
  | some r :: rest => by
    simp [loadRoomRecords, List.takeWhile_cons, loadRoomRecords_eq rest]
  | none :: rest => by
    simp [loadRoomRecords, List.takeWhile_cons]

/-- C5 counterexample: one room directory holding a well-formed file, then a
malformed one, then another well-formed one. The claim says both well-formed
records are loaded; the source's per-room `except` aborts the room's file
loop at the malformed file, so only the first record is loaded. -/
theorem c5_counterexample :
    load_at_records c5Entries = [((1 : Int), [c5RecA])] ∧
      load_at_records c5Entries ≠ [((1 : Int), [c5RecA, c5RecB])] := by
  decide

/-- C5 (amended): the startup load isolates failures per room directory, not
per record file: for every on-disk layout, the in-memory index after load
maps each digit-named directory to exactly the well-formed records that
precede the directory's first malformed file (records after a malformed file
in the same room directory are dropped); other room directories are
unaffected. -/
theorem c5_amended (entries : List DirEntry) :
    load_at_records entries
      = (entries.filter fun e => e.isDir && isAllDigits e.name).map
          (fun e => ((digitsToNat e.name : Int),
            (e.files.takeWhile Option.isSome).filterMap fun x => x)) := by
  induction entries with
  | nil => rfl
  | cons e rest ih =>
    simp only [load_at_records, List.filter_cons]
    split
    · simp [ih, loadRoomRecords_eq]
    · simp [ih]

/-! Lemmas about the retention sweep. -/

theorem removeAll_nil (files : List String) : removeAll files [] = files := by
  simp [removeAll]

theorem removeAll_removeAll (files a b : List String) :
    removeAll (removeAll files a) b = removeAll files (a ++ b) := by
  unfold removeAll
  rw [List.filter_filter]
  apply List.filter_congr
  intro x _
  have h : ((a ++ b).contains x) = (a.contains x || b.contains x) := by simp
  rw [h, Bool.not_or, Bool.and_comm]

theorem sweepGroup_eq (parse : String → Option Int) (cutoff : Int) :
    ∀ (recs : List AtRecord) (files : List String),
      sweepGroup parse cutoff recs files
        = (recs.filter (fun r => !shouldDelete parse cutoff r),
           removeAll files (deletedNames parse cutoff recs))
  | [], files => by simp [sweepGroup, deletedNames, removeAll_nil]
  | r :: rest, files => by
    simp only [sweepGroup, deletedNames, List.filter_cons]
    cases hd : shouldDelete parse cutoff r with
    | true =>
      rw [sweepGroup_eq parse cutoff rest
        (removeAll files (r.associated_images ++ [recordFileName r.id]))]
      simp [hd, removeAll_removeAll]
    | false =>
      rw [sweepGroup_eq parse cutoff rest files]
      simp [hd]

theorem mem_deletedNames (parse : String → Option Int) (cutoff : Int) {r : AtRecord}
    {n : String} (hn : n ∈ r.associated_images ++ [recordFileName r.id]) :
    ∀ recs : List AtRecord, r ∈ recs → shouldDelete parse cutoff r = true →
      n ∈ deletedNames parse cutoff recs
  | [], hr, _ => absurd hr (by simp)
  | q :: rest, hr, hd => by
    rcases List.mem_cons.mp hr with h | h
    · subst h
      simp only [deletedNames, hd, if_true]
      exact List.mem_append_left _ hn
    · simp only [deletedNames]
      exact List.mem_append_right _ (mem_deletedNames parse cutoff hn rest h hd)

theorem not_mem_removeAll {files names : List String} {n : String} (hn : n ∈ names) :
    n ∉ removeAll files names := by
  intro hmem
  unfold removeAll at hmem
  rw [List.mem_filter] at hmem
  have := hmem.2
  rw [Bool.not_eq_true'] at this
  have hcon : names.contains n = true := by
    simp only [List.contains]
    exact List.elem_iff.mpr hn
  rw [hcon] at this
  cases this

/-- C7: for every stored state and sweep invocation, a record is kept in
memory iff it does not meet the deletion test, i.e. it is deleted exactly
when its start time parses and is strictly older than the cutoff
(`now - retention_horizon`); a deleted record's associated image files and
its own record file are removed from the room directory; and a record whose
start timestamp is missing or unparseable never meets the deletion test, so
it is conservatively kept (with a warning in the source). -/
theorem c7_sweep_deletion_iff (parse : String → Option Int) (cutoff : Int)
    (recs : List AtRecord) (files : List String) (r : AtRecord) :
    (r ∈ (sweepGroup parse cutoff recs files).1
        ↔ r ∈ recs ∧ shouldDelete parse cutoff r = false) ∧
      (r ∈ recs → shouldDelete parse cutoff r = true →
        recordFileName r.id ∉ (sweepGroup parse cutoff recs files).2 ∧
          ∀ img ∈ r.associated_images, img ∉ (sweepGroup parse cutoff recs files).2) ∧
      (r.start_time.bind parse = none → shouldDelete parse cutoff r = false) := by
  rw [sweepGroup_eq]
  refine ⟨?_, ?_, ?_⟩
  · rw [List.mem_filter, Bool.not_eq_true']
  · intro hr hd
    constructor
    · exact not_mem_removeAll
        (mem_deletedNames parse cutoff (by simp) recs hr hd)
    · intro img himg
      exact not_mem_removeAll
        (mem_deletedNames parse cutoff (List.mem_append_left _ himg) recs hr hd)
  · intro hnone
    unfold shouldDelete
    rw [hnone]

/-- C7 witness: a record with a parseable, expired start time is deleted
together with its image and record files, while a fresh record and an
unparseable one are kept. -/
theorem c7_sweep_deletion_iff_witness :
    (c7RecOld ∈ (sweepGroup exParse 5 [c7RecOld, c7RecNew] c7Files).1
        ↔ c7RecOld ∈ [c7RecOld, c7RecNew] ∧ shouldDelete exParse 5 c7RecOld = false) ∧
      recordFileName c7RecOld.id ∉ (sweepGroup exParse 5 [c7RecOld, c7RecNew] c7Files).2 := by
  have h := c7_sweep_deletion_iff exParse 5 [c7RecOld, c7RecNew] c7Files c7RecOld
  exact ⟨h.1, (h.2.1 (by decide) (by decide)).1⟩

theorem deletedNames_eq_nil (parse : String → Option Int) (cutoff : Int) :
    ∀ recs : List AtRecord, (∀ r ∈ recs, shouldDelete parse cutoff r = false) →
      deletedNames parse cutoff recs = []
  | [], _ => rfl
  | r :: rest, h => by
    have hr := h r (List.mem_cons_self r rest)
    simp [deletedNames, hr,
      deletedNames_eq_nil parse cutoff rest (fun x hx => h x (List.mem_cons_of_mem _ hx))]

theorem sweepGroup_idem (parse : String → Option Int) (cutoff : Int)
    (recs : List AtRecord) (files : List String) :
    sweepGroup parse cutoff (sweepGroup parse cutoff recs files).1
        (sweepGroup parse cutoff recs files).2
      = sweepGroup parse cutoff recs files := by
  rw [sweepGroup_eq, sweepGroup_eq]
  have hkept : ∀ r ∈ recs.filter (fun r => !shouldDelete parse cutoff r),
      shouldDelete parse cutoff r = false := by
    intro r hr
    have := (List.mem_filter.mp hr).2
    rwa [Bool.not_eq_true'] at this
  have h1 : (recs.filter (fun r => !shouldDelete parse cutoff r)).filter
      (fun r => !shouldDelete parse cutoff r)
      = recs.filter (fun r => !shouldDelete parse cutoff r) := by
    rw [List.filter_filter]
    apply List.filter_congr
    intro x _
    rw [Bool.and_self]
  rw [h1, deletedNames_eq_nil parse cutoff _ hkept, removeAll_nil]

/-- C8: the retention sweep is idempotent — with the same cutoff
(`now - retention_horizon`), sweeping the store twice leaves exactly the same
in-memory record lists and on-disk directory listings as sweeping once. -/
theorem c8_sweep_idempotent (parse : String → Option Int) (cutoff : Int)
    (st : List (Int × List AtRecord × List String)) :
    cleanup_old_records parse cutoff (cleanup_old_records parse cutoff st)
      = cleanup_old_records parse cutoff st := by
  unfold cleanup_old_records
  rw [List.map_map]
  apply List.map_congr_left
  intro e _
  simp only [Function.comp]
  rw [sweepGroup_idem]

/-! Lemmas about the query pipeline. -/

theorem mem_insertByStartDesc {x r : AtRecord} :
    ∀ l : List AtRecord, x ∈ insertByStartDesc r l → x = r ∨ x ∈ l
  | [], h => Or.inl (List.mem_singleton.mp h)
  | q :: rest, h => by
    unfold insertByStartDesc at h
    split at h
    · rcases List.mem_cons.mp h with h1 | h1
      · exact Or.inl h1
      · exact Or.inr h1
    · rcases List.mem_cons.mp h with h1 | h1
      · exact Or.inr (List.mem_cons.mpr (Or.inl h1))
      · rcases mem_insertByStartDesc rest h1 with h2 | h2
        · exact Or.inl h2
        · exact Or.inr (List.mem_cons.mpr (Or.inr h2))

theorem mem_sortByStartDesc {x : AtRecord} :
    ∀ l : List AtRecord, x ∈ sortByStartDesc l → x ∈ l
  | [], h => by rw [sortByStartDesc] at h; exact absurd h (List.not_mem_nil x)
  | r :: rest, h => by
    unfold sortByStartDesc at h
    rcases mem_insertByStartDesc _ h with h1 | h1
    · exact List.mem_cons.mpr (Or.inl h1)
    · exact List.mem_cons.mpr (Or.inr (mem_sortByStartDesc rest h1))

theorem finalizeRecord_start_time {r e : AtRecord} (h : finalizeRecord r = some e) :
    e.start_time = r.start_time := by
  unfold finalizeRecord at h
  split at h
  · cases h
  · cases h
    rfl

/-- C10: the who-mentioned query silently excludes every stored record whose
start time is missing or does not parse — such a record is never among the
query's results for any user — while the retention sweep (for any cutoff)
conservatively keeps the very same record. -/
theorem c10_query_excludes_unparseable (parse : String → Option Int)
    (cutoffQ cutoffS : Int) (recs : List AtRecord) (files : List String)
    (uid : String) (r : AtRecord) (h : r.start_time.bind parse = none) :
    r ∉ handle_who_at_me parse cutoffQ recs uid ∧
      (r ∈ recs → r ∈ (sweepGroup parse cutoffS recs files).1) := by
  constructor
  · intro hmem
    unfold handle_who_at_me at hmem
    have h1 := List.mem_of_mem_take hmem
    have h2 := mem_sortByStartDesc _ h1
    rcases List.mem_filterMap.mp h2 with ⟨orig, horig, hfin⟩
    have hst : r.start_time = orig.start_time := finalizeRecord_start_time hfin
    have hvalid : validRecord parse cutoffQ orig = true :=
      (List.mem_filter.mp (List.mem_filter.mp horig).1).2
    unfold validRecord at hvalid
    rw [← hst, h] at hvalid
    cases hvalid
  · intro hr
    rw [sweepGroup_eq, List.mem_filter]
    refine ⟨hr, ?_⟩
    unfold shouldDelete
    rw [h]
    rfl

/-- C10 witness: a record with a missing start time is not returned by the
query for its own target, yet survives the sweep. -/
theorem c10_query_excludes_unparseable_witness :
    c10RecBad ∉ handle_who_at_me exParse 0 [c10RecBad] "4" ∧
      c10RecBad ∈ (sweepGroup exParse 0 [c10RecBad] []).1 := by
  have h := c10_query_excludes_unparseable exParse 0 0 [c10RecBad] [] "4" c10RecBad rfl
  exact ⟨h.1, h.2 (by decide)⟩

/-! Greatest-index characterization lemmas for the query's truncation rule. -/

theorem lastSenderRel_eq_none (uid : Int) :
    ∀ l : List Message, (∀ m ∈ l, (m.user_id == uid) = false) → lastSenderRel uid l = none
  | [], _ => rfl
  | m :: rest, h => by
    have hm := h m (List.mem_cons_self m rest)
    have hr := lastSenderRel_eq_none uid rest (fun x hx => h x (List.mem_cons_of_mem _ hx))
    simp [lastSenderRel, hr, hm]

theorem lastSenderRel_eq_some (uid : Int) :
    ∀ (l : List Message) (j : Nat), j < l.length →
      (l[j]?.all fun m => m.user_id == uid) = true →
      (∀ k, k < l.length → j < k → (l[k]?.all fun m => !(m.user_id == uid)) = true) →
      lastSenderRel uid l = some j
  | [], j, hj, _, _ => absurd hj (by simp)
  | m :: rest, j, hj, hp, hmax => by
    cases j with
    | zero =>
      have hrestnone : lastSenderRel uid rest = none := by
        apply lastSenderRel_eq_none
        intro x hx
        rcases List.mem_iff_getElem?.mp hx with ⟨k, hk⟩
        have hkl : k < rest.length := (List.getElem?_eq_some.mp hk).1
        have hx1 := hmax (k + 1) (by simpa using hkl) (Nat.succ_pos k)
        rw [List.getElem?_cons_succ, hk] at hx1
        simpa using hx1
      simp only [List.getElem?_cons_zero, Option.all_some] at hp
      simp [lastSenderRel, hrestnone, hp]
    | succ j' =>
      have hr := lastSenderRel_eq_some uid rest j' (by simpa using hj) (by simpa using hp)
        (fun k hk hjk => by simpa using hmax (k + 1) (by simpa using hk) (by omega))
      simp [lastSenderRel, hr]

theorem lastSenderIdxAfter_eq_none (uid : Int) (atIdx : Nat) (msgs : List Message)
    (h : ∀ k, k < msgs.length → atIdx < k →
      (msgs[k]?.all fun m => !(m.user_id == uid)) = true) :
    lastSenderIdxAfter uid atIdx msgs = none := by
  unfold lastSenderIdxAfter
  rw [lastSenderRel_eq_none]
  · rfl
  · intro m hm
    rcases List.mem_iff_getElem?.mp hm with ⟨k, hk⟩
    rw [List.getElem?_drop] at hk
    have hkl : atIdx + 1 + k < msgs.length := (List.getElem?_eq_some.mp hk).1
    have hx := h (atIdx + 1 + k) hkl (by omega)
    rw [hk] at hx
    simpa using hx

theorem lastSenderIdxAfter_eq_some (uid : Int) (atIdx j : Nat) (msgs : List Message)
    (hij : atIdx < j) (hj : j < msgs.length)
    (hp : (msgs[j]?.all fun m => m.user_id == uid) = true)
    (hmax : ∀ k, k < msgs.length → j < k →
      (msgs[k]?.all fun m => !(m.user_id == uid)) = true) :
    lastSenderIdxAfter uid atIdx msgs = some j := by
  unfold lastSenderIdxAfter
  rw [lastSenderRel_eq_some uid (msgs.drop (atIdx + 1)) (j - (atIdx + 1))]
  · have harith : j - (atIdx + 1) + (atIdx + 1) = j := by omega
    simp [harith]
  · rw [List.length_drop]
    omega
  · rw [List.getElem?_drop]
    have harith : atIdx + 1 + (j - (atIdx + 1)) = j := by omega
    rw [harith]
    exact hp
  · intro k hk hjk
    rw [List.getElem?_drop]
    rw [List.length_drop] at hk
    exact hmax (atIdx + 1 + k) (by omega) (by omega)

/-- C4: for every record reaching the finalization step of the query: if no
message of its excerpt is both authored by the record's sender and carries a
mention, the record is dropped; otherwise, with `i` the first such index, if
no later message is authored by the sender the full excerpt is returned, and
if `j` is the last sender-authored index after `i` the excerpt is truncated
to `messages[0 .. min(j + 2, length))`. -/
theorem c4_finalize_truncation (r : AtRecord) (i j : Nat) :
    ((∀ m ∈ r.messages, (hasAt m.content && (m.user_id == r.sender_id)) = false) →
      finalizeRecord r = none) ∧
    (i < r.messages.length →
      (r.messages[i]?.all fun m => hasAt m.content && (m.user_id == r.sender_id)) = true →
      (∀ k, k < i →
        (r.messages[k]?.all fun m => !(hasAt m.content && (m.user_id == r.sender_id))) = true) →
      ((∀ k, k < r.messages.length → i < k →
          (r.messages[k]?.all fun m => !(m.user_id == r.sender_id)) = true) →
        finalizeRecord r = some r) ∧
      (i < j → j < r.messages.length →
        (r.messages[j]?.all fun m => m.user_id == r.sender_id) = true →
        (∀ k, k < r.messages.length → j < k →
          (r.messages[k]?.all fun m => !(m.user_id == r.sender_id)) = true) →
        finalizeRecord r
          = some { r with messages := r.messages.take (min (j + 2) r.messages.length) })) := by
  constructor
  · intro hnone
    unfold finalizeRecord
    rw [firstMatchIdx_eq_none _ _ hnone]
  · intro hi hp hmin
    have hfst := firstMatchIdx_eq_some _ r.messages i hi hp hmin
    constructor
    · intro hafter
      unfold finalizeRecord
      rw [hfst]
      simp only [lastSenderIdxAfter_eq_none r.sender_id i r.messages hafter, List.take_length]
    · intro hij hj hpj hmax
      unfold finalizeRecord
      rw [hfst]
      simp only [lastSenderIdxAfter_eq_some r.sender_id i j r.messages hij hj hpj hmax]

/-- C4 witness: in the six-message excerpt of `c4Record` the first
sender-authored mention is at index 1 and the sender's last later message is
at index 3, so the excerpt is truncated to the first five messages. -/
theorem c4_finalize_truncation_witness :
    finalizeRecord c4Record
      = some { c4Record with
          messages := c4Record.messages.take (min (3 + 2) c4Record.messages.length) } := by
  have h := (c4_finalize_truncation c4Record 1 3).2 (by decide) (by decide) (by decide)
  exact h.2 (by decide) (by decide) (by decide) (by decide)


/-! Session-tracking lemmas for the budget countdown. -/

theorem filterMap_keep_filter (ids : List String) (rid : String) :
    ∀ ss : List Session,
      (ss.filterMap (keepSession ids)).filter (fun t => t.record_id == rid)
        = (ss.filter (fun t => t.record_id == rid)).filterMap (keepSession ids)
  | [] => rfl
  | s :: rest => by
    simp only [List.filterMap_cons, List.filter_cons]
    cases hk : keepSession ids s with
    | none =>
      cases hsr : (s.record_id == rid) with
      | false => simp [hsr, filterMap_keep_filter ids rid rest]
      | true => simp [hk, hsr, filterMap_keep_filter ids rid rest]
    | some s' =>
      have hrid : s'.record_id = s.record_id := (keepSession_fields hk).1
      cases hsr : (s.record_id == rid) with
      | false => simp [List.filter_cons, hrid, hsr, filterMap_keep_filter ids rid rest]
      | true => simp [List.filter_cons, hrid, hsr, hk, filterMap_keep_filter ids rid rest]

theorem any_ids_of_mem {recs : List String} {rid : String} (h : rid ∈ recs) :
    (recs.any fun i => i == rid) = true := by
  rw [List.any_eq_true]
  exact ⟨rid, h, by simp⟩

theorem keepSession_update_singleton (ids : List String) (s : Session) (x : Int)
    (hid : (ids.any fun i => i == s.record_id) = true) :
    ([({ s with remaining := x } : Session)].filterMap (keepSession ids))
      = if x - 1 > 0 then [({ s with remaining := x - 1 } : Session)] else [] := by
  by_cases hx : x - 1 > 0
  · rw [if_pos hx]
    simp [keepSession, hid, hx]
  · rw [if_neg hx]
    simp [keepSession, hid, hx]

theorem session_update_congr (s : Session) (x y : Int) (h : x = y) :
    ({ s with remaining := x } : Session) = { s with remaining := y } := by
  rw [h]

theorem runStep_sessions_filter (cfg : Config) (botId : String) (mediaName : String → String)
    (gid : Int) (st : GroupState) (inp : StepInput) (rid : String)
    (hfresh : inp.newRecordId ≠ rid) :
    (runStep cfg botId mediaName gid st inp).sessions.filter (fun t => t.record_id == rid)
        = (st.sessions.filter (fun t => t.record_id == rid)).filterMap
            (keepSession (st.records.map (fun r => r.id))) ∧
      st.records.map (fun r => r.id)
        ⊆ (runStep cfg botId mediaName gid st inp).records.map (fun r => r.id) := by
  have hk : (advanceSessions mediaName inp.msg st.records st.sessions).2.filter
      (fun t => t.record_id == rid)
      = (st.sessions.filter (fun t => t.record_id == rid)).filterMap
          (keepSession (st.records.map (fun r => r.id))) := by
    rw [advanceSessions_snd_eq, filterMap_keep_filter]
  have hids : (advanceSessions mediaName inp.msg st.records st.sessions).1.map
      (fun r => r.id) = st.records.map (fun r => r.id) :=
    advanceSessions_fst_map_id mediaName inp.msg st.sessions st.records
  have hnew : (inp.newRecordId == rid) = false := beq_eq_false_iff_ne.mpr hfresh
  unfold runStep processGroupMessage
  cases htr : (hasAt inp.msg.content && !(toString inp.msg.user_id == botId)) with
  | false =>
    simp only [htr, Bool.false_eq_true, if_false]
    exact ⟨hk, by rw [hids]; exact List.Subset.refl _⟩
  | true =>
    cases hdup : (advanceSessions mediaName inp.msg st.records st.sessions).2.any
        (sessionKeyMatches inp.msg.user_id (atTargets inp.msg.content)) with
    | true =>
      simp only [htr, hdup, if_true]
      exact ⟨hk, by rw [hids]; exact List.Subset.refl _⟩
    | false =>
      simp only [htr, hdup, Bool.false_eq_true, if_false, if_true]
      constructor
      · rw [List.filter_append, hk]
        simp [hnew]
      · rw [List.map_append]
        intro x hx
        rw [← hids] at hx
        exact List.mem_append_left _ hx

/-- C3: for an open session whose linked record exists, every observed
message in the room decrements its budget by exactly one, and the session is
removed from the open-session set exactly when the budget reaches zero: a
session with budget `b ≥ 1` is still open with budget `b - k` after `k < b`
further messages, and is gone after the `b`-th. (`hfresh` says the externally
generated fresh record ids never collide with the tracked session's id.) -/
theorem c3_budget_countdown (cfg : Config) (botId : String) (mediaName : String → String)
    (gid : Int) (st : GroupState) (inputs : List StepInput) (s : Session) (b : Nat)
    (hfil : st.sessions.filter (fun t => t.record_id == s.record_id) = [s])
    (hrec : s.record_id ∈ st.records.map (fun r => r.id))
    (hb : s.remaining = (b : Int)) (hbpos : 0 < b)
    (hfresh : ∀ inp ∈ inputs, inp.newRecordId ≠ s.record_id) :
    ∀ k, k ≤ inputs.length →
      (runSteps cfg botId mediaName gid st (inputs.take k)).sessions.filter
          (fun t => t.record_id == s.record_id)
        = if k < b then [({ s with remaining := (b : Int) - (k : Int) } : Session)] else [] := by
  suffices hsuf : ∀ k, k ≤ inputs.length →
      s.record_id ∈ (runSteps cfg botId mediaName gid st (inputs.take k)).records.map
          (fun r => r.id) ∧
      (runSteps cfg botId mediaName gid st (inputs.take k)).sessions.filter
          (fun t => t.record_id == s.record_id)
        = if k < b then [({ s with remaining := (b : Int) - (k : Int) } : Session)] else [] by
    exact fun k hk => (hsuf k hk).2
  intro k
  induction k with
  | zero =>
    intro _
    rw [List.take_zero]
    refine ⟨hrec, ?_⟩
    show st.sessions.filter (fun t => t.record_id == s.record_id)
      = if 0 < b then [({ s with remaining := (b : Int) - ((0 : Nat) : Int) } : Session)] else []
    rw [hfil, if_pos hbpos]
    have harith : (b : Int) - ((0 : Nat) : Int) = s.remaining := by
      rw [hb]; simp
    rw [harith]
  | succ k ih =>
    intro hk1
    have hklen : k < inputs.length := hk1
    obtain ⟨ihrec, ihfil⟩ := ih (Nat.le_of_succ_le hk1)
    have htake : inputs.take (k + 1) = inputs.take k ++ [inputs[k]] := by
      rw [List.take_succ, List.getElem?_eq_getElem hklen, Option.toList_some]
    have hrun : runSteps cfg botId mediaName gid st (inputs.take (k + 1))
        = runStep cfg botId mediaName gid
            (runSteps cfg botId mediaName gid st (inputs.take k)) inputs[k] := by
      rw [htake]
      unfold runSteps
      rw [List.foldl_append]
      rfl
    have hfreshk : (inputs[k]).newRecordId ≠ s.record_id :=
      hfresh inputs[k] (List.getElem_mem hklen)
    obtain ⟨hstep_fil, hstep_sub⟩ := runStep_sessions_filter cfg botId mediaName gid
      (runSteps cfg botId mediaName gid st (inputs.take k)) inputs[k] s.record_id hfreshk
    rw [hrun]
    refine ⟨hstep_sub ihrec, ?_⟩
    rw [hstep_fil, ihfil]
    by_cases hkb : k < b
    · rw [if_pos hkb]
      have hany : (((runSteps cfg botId mediaName gid st (inputs.take k)).records.map
          (fun r => r.id)).any fun i => i == s.record_id) = true :=
        any_ids_of_mem ihrec
      rw [keepSession_update_singleton _ _ _ hany]
      by_cases hkb1 : k + 1 < b
      · rw [if_pos (show (b : Int) - (k : Int) - 1 > 0 by omega), if_pos hkb1,
          session_update_congr s _ _
            (show (b : Int) - (k : Int) - 1 = (b : Int) - ((k + 1 : Nat) : Int) by
              push_cast; ring)]
      · rw [if_neg (show ¬((b : Int) - (k : Int) - 1 > 0) by omega), if_neg hkb1]
    · rw [if_neg hkb, if_neg (show ¬(k + 1 < b) by omega)]
      simp

/-- C3 witness: a session with budget 2 is gone after two plain observed
messages. -/
theorem c3_budget_countdown_witness :
    (runSteps exCfg "bot" id 42 c3State (c3Inputs.take 2)).sessions.filter
        (fun t => t.record_id == c3Session.record_id) = [] := by
  have h := c3_budget_countdown exCfg "bot" id 42 c3State c3Inputs c3Session 2
    (by decide) (by decide) (by decide) (by decide)
    (by decide) 2 (by decide)
  simpa using h

end ATTracker
